import Mathlib

/-!
# A verification development for zerver/lib/topic.py

A shallow embedding of the topic-handling layer of the message store:

* Python strings are Lean `String`s; `str.lower` is modelled character-wise
  (`py_lower`), and the case-insensitive `iexact` database match compares
  lowercased names.
* Database tables are lists of rows (`Msg`, `UserMessageRow`); querysets are
  boolean row predicates, evaluated lazily against an explicit database
  state, which mirrors the capture-ids / update / re-fetch choreography of
  `update_messages_for_topic_edit`.
* The text-encoded JSON `edit_history` column is modelled by the array it
  encodes, `Option (List EditHistoryEvent)` (`NULL` is `none`); the
  `orjson` round-trips and the `::jsonb` casts become the identity on that
  representation.
* Python assert and KeyError become `Except.error`.
* The external access-control check `bulk_access_stream_messages_query` is
  an oracle parameter `bulk_access : Msg → Bool` (the acting user and the
  source stream are already baked into it).
* Python dicts keyed by strings are insertion-ordered association lists
  (`dict_set` / `dict_find`), matching the iteration order the code relies
  on, and the stable Python `sorted` is a stable insertion sort by an integer
  key (`sort_by_key`).
-/

namespace ZerverTopic

/-- Models Python `str.lower` character-wise (sufficient for the ASCII case
folding the topic code performs). -/
def py_lower (s : String) : String := ⟨s.data.map Char.toLower⟩

/-- Case-insensitive topic-name equality, modelling the `subject__iexact`
database filter. -/
def iexact (a b : String) : Bool := py_lower a == py_lower b

/-- The marker prepended to a topic name to mark the topic as resolved
(`RESOLVED_TOPIC_PREFIX = "✔ "`). -/
def RESOLVED_TOPIC_PREFIX : String := "✔ "

/-- Modelled from the spec: the configured fallback label substituted for an
empty topic name (`Message.EMPTY_TOPIC_FALLBACK_NAME`, defined outside this
module in zerver/models). The claims only depend on it being a fixed label
distinct from the empty string. -/
def EMPTY_TOPIC_FALLBACK_NAME : String := "general chat"

/-- An edit-history event record: timestamp, acting user, and the previous
and new topic or stream when they changed. -/
structure EditHistoryEvent where
  timestamp : Int
  user_id : Option Int
  prev_topic : Option String
  new_topic : Option String
  prev_stream : Option Int
  new_stream : Option Int
  deriving DecidableEq

/-- A row of the message table. `edit_history` is the decoded form of the
text-encoded JSON array column (`NULL` is `none`). -/
structure Msg where
  id : Int
  realm_id : Int
  recipient_id : Int
  subject : String
  is_channel_message : Bool
  last_edit_time : Option Int
  edit_history : Option (List EditHistoryEvent)
  deriving DecidableEq

/-- A row of the user-message (personal delivery record) table, with the
joined message row inlined. -/
structure UserMessageRow where
  user_profile_id : Int
  message : Msg
  deriving DecidableEq

/-- The database state visible to the topic queries. -/
structure TopicDB where
  messages : List Msg
  usermessages : List UserMessageRow
  deriving DecidableEq

/-- The fields of a stream used by the topic-move code. The
`assert_is_not_none(old_stream.recipient_id)` guard is modelled by the
non-optional type of `recipient_id`. -/
structure StreamInfo where
  realm_id : Int
  recipient_id : Int
  deriving DecidableEq

/-- The propagation policy of a topic edit. -/
inductive PropagateMode where
  | change_one
  | change_later
  | change_all
  deriving DecidableEq

/-- The parts of a stream-message edit request consumed by
`update_messages_for_topic_edit`. -/
structure StreamMessageEditRequest where
  orig_stream : StreamInfo
  orig_topic_name : String
  propagate_mode : PropagateMode
  is_stream_edited : Bool
  is_topic_edited : Bool
  target_stream : StreamInfo
  target_topic_name : String
  deriving DecidableEq

/-- A derived topic-history entry `dict(name=..., max_id=...)`. -/
structure TopicHistoryEntry where
  name : String
  max_id : Int
  deriving DecidableEq

/-- Lookup in a string-keyed association list (the read half of the Python
dict model). -/
def dict_find {ν : Type _} (d : List (String × ν)) (k : String) : Option ν :=
  match d with
  | [] => none
  | (k0, v) :: rest => if k0 = k then some v else dict_find rest k

/-- Python dict subscription `d[k]`: a missing key raises `KeyError`. -/
def dict_get (message_info : List (String × String)) (k : String) :
    Except String String :=
  match dict_find message_info k with
  | some v => Except.ok v
  | none => Except.error ("KeyError")

/-- Topic extraction get_topic_from_message_info: prefer the key "topic",
fall back to "subject", and let a KeyError from a missing "subject" key
propagate to the caller. -/
def get_topic_from_message_info (message_info : List (String × String)) :
    Except String String :=
  if message_info.any (fun kv => kv.1 == "topic") then
    dict_get message_info ("topic")
  else
    dict_get message_info ("subject")

/-- The messages_for_topic query: all channel messages of the realm and recipient
whose subject matches the topic name case-insensitively. -/
def messages_for_topic (db : List Msg) (realm_id : Int)
    (stream_recipient_id : Int) (topic_name : String) : List Msg :=
  db.filter (fun m =>
    m.realm_id == realm_id &&
    m.recipient_id == stream_recipient_id &&
    iexact m.subject topic_name &&
    m.is_channel_message)

/-- Latest-message lookup get_latest_message_for_user_in_topic. The leading assert on
`acting_user_has_channel_content_access` (whose default value is `false`)
is modelled as `Except.error ("AssertionError")`; the `.values_list.last()`
calls become `getLast?` over the filtered rows. -/
def get_latest_message_for_user_in_topic (db : TopicDB) (realm_id : Int)
    (user_profile : Option Int) (recipient_id : Int) (topic_name : String)
    (history_public_to_subscribers : Bool)
    (acting_user_has_channel_content_access : Bool := false) :
    Except String (Option Int) :=
  if acting_user_has_channel_content_access then
    if history_public_to_subscribers then
      Except.ok
        ((messages_for_topic db.messages realm_id recipient_id
            topic_name).map (fun m => m.id)).getLast?
    else
      match user_profile with
      | some uid =>
          Except.ok
            (((db.usermessages.filter (fun um =>
                um.user_profile_id == uid &&
                um.message.recipient_id == recipient_id &&
                iexact um.message.subject topic_name &&
                um.message.is_channel_message)).map
              (fun um => um.message.id)).getLast?)
      | none => Except.ok none
  else
    Except.error ("AssertionError")

/-- In-memory edit bookkeeping update_edit_history: set last_edit_time and push the new event onto
the front (index 0) of the decoded history, a missing history counting as
the empty list. -/
def update_edit_history (message : Msg) (last_edit_time : Int)
    (edit_history_event : EditHistoryEvent) : Msg :=
  let edit_history : List EditHistoryEvent :=
    match message.edit_history with
    | some existing => edit_history_event :: existing
    | none => [edit_history_event]
  { message with
    last_edit_time := some last_edit_time,
    edit_history := some edit_history }

/-- The SQL `edit_history` expression of `update_messages_for_topic_edit`,
over the decoded column:
the serialized singleton array of the event cast to jsonb, concatenated
by || with COALESCE of the column and the empty JSON array, cast to jsonb. -/
def edit_history_sql_expr (edit_history_event : EditHistoryEvent)
    (stored : Option (List EditHistoryEvent)) : List EditHistoryEvent :=
  [edit_history_event] ++
    (match stored with
     | some existing => existing
     | none => [])

/-- The initial candidate queryset of `update_messages_for_topic_edit`:
channel messages of the realm and recipient of the original stream in the
original topic (case-insensitive). -/
def topic_edit_base_pred (message_edit_request : StreamMessageEditRequest)
    (m : Msg) : Bool :=
  m.realm_id == message_edit_request.orig_stream.realm_id &&
  m.recipient_id == message_edit_request.orig_stream.recipient_id &&
  iexact m.subject message_edit_request.orig_topic_name &&
  m.is_channel_message

/-- The candidate queryset after the two propagate-mode refinements:
`change_all` excludes the edited message, `change_later` keeps only rows
with a larger id. -/
def topic_edit_candidate_pred
    (message_edit_request : StreamMessageEditRequest)
    (edited_message_id : Int) (m : Msg) : Bool :=
  topic_edit_base_pred message_edit_request m &&
  (if message_edit_request.propagate_mode = PropagateMode.change_all then
     m.id != edited_message_id
   else true) &&
  (if message_edit_request.propagate_mode = PropagateMode.change_later then
     decide (edited_message_id < m.id)
   else true)

/-- The final queryset predicate: when the stream is being edited the rows
are additionally restricted by the external access-control check. -/
def topic_edit_messages_pred (bulk_access : Msg → Bool)
    (message_edit_request : StreamMessageEditRequest)
    (edited_message_id : Int) (m : Msg) : Bool :=
  topic_edit_candidate_pred message_edit_request edited_message_id m &&
  (if message_edit_request.is_stream_edited then bulk_access m else true)

/-- One row of the bulk UPDATE: set `last_edit_time`, prepend to
`edit_history`, and overwrite recipient and subject when the stream or the
topic is being edited. -/
def apply_topic_edit_update
    (message_edit_request : StreamMessageEditRequest)
    (edit_history_event : EditHistoryEvent) (last_edit_time : Int)
    (m : Msg) : Msg :=
  { m with
    last_edit_time := some last_edit_time,
    edit_history :=
      some (edit_history_sql_expr edit_history_event m.edit_history),
    recipient_id :=
      if message_edit_request.is_stream_edited then
        message_edit_request.target_stream.recipient_id
      else m.recipient_id,
    subject :=
      if message_edit_request.is_topic_edited then
        message_edit_request.target_topic_name
      else m.subject }

/-- What `update_messages_for_topic_edit` hands back: the (lazy) candidate
queryset predicate, the id list captured before the update, and the
deferred propagate step, which maps a database state to the state after the
bulk update together with the re-fetch of the captured ids. -/
structure TopicEditResult where
  messages_pred : Msg → Bool
  message_ids : List Int
  propagate : List Msg → List Msg × List Msg

/-- The topic-move transaction update_messages_for_topic_edit. The queryset is lazy, so the
captured `message_ids` are evaluated against the database state `db` at
call time, while `propagate` re-evaluates the same predicate against the
state it is invoked on, exactly as the Django queryset does. -/
def update_messages_for_topic_edit (bulk_access : Msg → Bool)
    (edited_message : Msg)
    (message_edit_request : StreamMessageEditRequest)
    (edit_history_event : EditHistoryEvent) (last_edit_time : Int)
    (db : List Msg) : TopicEditResult :=
  let pred :=
    topic_edit_messages_pred bulk_access message_edit_request
      edited_message.id
  let message_ids : List Int :=
    edited_message.id :: (db.filter pred).map (fun m => m.id)
  { messages_pred := pred,
    message_ids := message_ids,
    propagate := fun db_now =>
      let db_new := db_now.map (fun m =>
        if pred m then
          apply_topic_edit_update message_edit_request edit_history_event
            last_edit_time m
        else m)
      (db_new, db_new.filter (fun m => message_ids.contains m.id)) }

/-- Stable insertion into a list ascending by an integer key: the new
element goes in front of the first element whose key is not smaller. -/
def insert_sorted {α : Type _} (key : α → Int) (a : α) :
    List α → List α
  | [] => [a]
  | y :: ys =>
      if key y < key a then y :: insert_sorted key a ys
      else a :: y :: ys

/-- Stable sort ascending by an integer key, modelling the stable Python
`sorted(..., key=...)`. -/
def sort_by_key {α : Type _} (key : α → Int) (l : List α) : List α :=
  l.foldr (insert_sorted key) []

/-- Insertion-ordered dictionary write `d[k] = v`, modelling a Python dict:
an existing key keeps its position and gets the new value, a new key is
appended. -/
def dict_set {ν : Type _} (d : List (String × ν)) (k : String) (v : ν) :
    List (String × ν) :=
  match d with
  | [] => [(k, v)]
  | (k0, v0) :: rest =>
      if k0 = k then (k, v) :: rest else (k0, v0) :: dict_set rest k v

/-- History aggregation generate_topic_history_from_db_rows: sort the rows
by max id ascending, fold them into a dict keyed by the lowercased name so
the latest casing wins, substitute the fallback label for a disallowed
empty name, and emit the entries sorted by max id descending. -/
def generate_topic_history_from_db_rows (rows : List (String × Int))
    (allow_empty_topic_name : Bool) : List TopicHistoryEntry :=
  let sorted_rows := sort_by_key (fun tup => tup.2) rows
  let canonical_topic_names : List (String × Int × String) :=
    sorted_rows.foldl (fun d r => dict_set d (py_lower r.1) (r.2, r.1)) []
  let history := canonical_topic_names.map (fun kv =>
    { name :=
        if kv.2.2 == "" && !allow_empty_topic_name then
          EMPTY_TOPIC_FALLBACK_NAME
        else kv.2.2,
      max_id := kv.2.1 : TopicHistoryEntry })
  sort_by_key (fun e => -e.max_id) history

/-- Resolution state get_topic_resolution_and_bare_name: a topic is resolved iff its
stored name starts with the resolution marker; the bare name has the marker
removed. The Python startswith and removeprefix pair is modelled by a
character-prefix test and a character drop. -/
def get_topic_resolution_and_bare_name (stored_name : String) :
    Bool × String :=
  if RESOLVED_TOPIC_PREFIX.data.isPrefixOf stored_name.data then
    (true, stored_name.drop RESOLVED_TOPIC_PREFIX.length)
  else
    (false, stored_name)

/-- The last row of a row list whose lowercased name is the class `c`
(the row whose value survives the dict fold for that key). -/
def last_with_class (c : String) :
    List (String × Int) → Option (String × Int)
  | [] => none
  | r :: rs =>
      match last_with_class c rs with
      | some x => some x
      | none => if py_lower r.1 = c then some r else none

/-- A small stream fixture for concrete instantiations of the topic-edit
theorems. -/
def demo_stream : StreamInfo := { realm_id := 1, recipient_id := 100 }

/-- A second stream, the target of a cross-stream move fixture. -/
def demo_target_stream : StreamInfo := { realm_id := 1, recipient_id := 200 }

/-- A fixed edit-history event fixture. -/
def demo_event : EditHistoryEvent :=
  { timestamp := 1000, user_id := some 7, prev_topic := some "T1",
    new_topic := some "T2", prev_stream := none, new_stream := none }

/-- A channel message fixture in the demo stream. -/
def demo_msg (i : Int) (subj : String) : Msg :=
  { id := i, realm_id := 1, recipient_id := 100, subject := subj,
    is_channel_message := true, last_edit_time := none,
    edit_history := none }

/-- A four-row message table fixture: three case variants of one topic and
one unrelated topic. -/
def demo_db : List Msg :=
  [demo_msg 1 "T1", demo_msg 2 "T1", demo_msg 3 "other", demo_msg 4 "t1"]

/-- An edit request fixture renaming topic T1 to T2 inside the demo
stream, parameterized by the propagation mode. -/
def demo_request (mode : PropagateMode) : StreamMessageEditRequest :=
  { orig_stream := demo_stream, orig_topic_name := "T1",
    propagate_mode := mode, is_stream_edited := false,
    is_topic_edited := true, target_stream := demo_stream,
    target_topic_name := "T2" }

/-- An edit request fixture that also moves the messages to another
stream, so the access-control filter applies. -/
def demo_request_stream : StreamMessageEditRequest :=
  { orig_stream := demo_stream, orig_topic_name := "T1",
    propagate_mode := PropagateMode.change_all, is_stream_edited := true,
    is_topic_edited := true, target_stream := demo_target_stream,
    target_topic_name := "T2" }

/-- An access oracle fixture that only admits the message with id 1. -/
def demo_access : Msg → Bool := fun m => m.id == 1

/-- The edited message of the change-all fixture. -/
def demo_edited : Msg := demo_msg 2 "T1"

/-- The edited message after the caller saved its own topic change. -/
def demo_saved : Msg := demo_msg 2 "T2"

/-- The fixture database after the caller saved the edited message. -/
def demo_db_saved : List Msg :=
  demo_db.map (fun m => if m.id = demo_edited.id then demo_saved else m)

/-- The re-fetched rows of the change-all fixture. -/
def demo_refetch : List Msg :=
  ((update_messages_for_topic_edit (fun _ => true) demo_edited
      (demo_request PropagateMode.change_all) demo_event 1000
      demo_db).propagate demo_db_saved).2

theorem insert_sorted_perm {α : Type _} (key : α → Int) (a : α) (l : List α) :
    List.Perm (insert_sorted key a l) (a :: l) := by
  induction l with
  | nil => exact List.Perm.refl _
  | cons y ys ih =>
      by_cases h : key y < key a
      · simp only [insert_sorted, if_pos h]
        exact (ih.cons y).trans (List.Perm.swap a y ys)
      · simp only [insert_sorted, if_neg h]
        exact List.Perm.refl _

theorem sort_by_key_perm {α : Type _} (key : α → Int) (l : List α) :
    List.Perm (sort_by_key key l) l := by
  induction l with
  | nil => exact List.Perm.refl _
  | cons a l ih =>
      exact (insert_sorted_perm key a (sort_by_key key l)).trans (ih.cons a)

theorem mem_insert_sorted {α : Type _} {key : α → Int} {a x : α} {l : List α} :
    x ∈ insert_sorted key a l ↔ x = a ∨ x ∈ l := by
  rw [(insert_sorted_perm key a l).mem_iff, List.mem_cons]

theorem insert_sorted_pairwise {α : Type _} (key : α → Int) (a : α)
    (l : List α) (h : l.Pairwise (fun x y => key x ≤ key y)) :
    (insert_sorted key a l).Pairwise (fun x y => key x ≤ key y) := by
  induction l with
  | nil => simp [insert_sorted]
  | cons y ys ih =>
      rcases List.pairwise_cons.mp h with ⟨hy, hys⟩
      by_cases hlt : key y < key a
      · simp only [insert_sorted, if_pos hlt]
        refine List.pairwise_cons.mpr ⟨?_, ih hys⟩
        intro x hx
        rcases mem_insert_sorted.mp hx with rfl | hx
        · exact le_of_lt hlt
        · exact hy x hx
      · simp only [insert_sorted, if_neg hlt]
        refine List.pairwise_cons.mpr ⟨?_, h⟩
        intro x hx
        rcases List.mem_cons.mp hx with rfl | hx
        · exact le_of_not_lt hlt
        · exact le_trans (le_of_not_lt hlt) (hy x hx)

theorem sort_by_key_pairwise {α : Type _} (key : α → Int) (l : List α) :
    (sort_by_key key l).Pairwise (fun x y => key x ≤ key y) := by
  induction l with
  | nil => simp [sort_by_key]
  | cons a l ih => exact insert_sorted_pairwise key a _ ih

theorem insert_sorted_map {α β : Type _} (key : β → Int) (key0 : α → Int)
    (g : α → β) (hkey : ∀ x, key (g x) = key0 x) (a : α) (l : List α) :
    insert_sorted key (g a) (l.map g) = (insert_sorted key0 a l).map g := by
  induction l with
  | nil => rfl
  | cons y ys ih =>
      by_cases h : key0 y < key0 a
      · simp only [List.map_cons, insert_sorted, hkey, if_pos h, ih]
      · simp only [List.map_cons, insert_sorted, hkey, if_neg h]

theorem sort_by_key_map {α β : Type _} (key : β → Int) (key0 : α → Int)
    (g : α → β) (hkey : ∀ x, key (g x) = key0 x) (l : List α) :
    sort_by_key key (l.map g) = (sort_by_key key0 l).map g := by
  induction l with
  | nil => rfl
  | cons a l ih =>
      show insert_sorted key (g a) (sort_by_key key (l.map g)) = _
      rw [ih]
      exact insert_sorted_map key key0 g hkey a (sort_by_key key0 l)

theorem dict_find_dict_set {ν : Type _} (d : List (String × ν)) (k : String)
    (v : ν) (k0 : String) :
    dict_find (dict_set d k v) k0 =
      if k = k0 then some v else dict_find d k0 := by
  induction d with
  | nil => rfl
  | cons hd tl ih =>
      obtain ⟨k1, v1⟩ := hd
      by_cases h1 : k1 = k
      · subst h1
        by_cases h0 : k1 = k0
        · simp [dict_set, dict_find, h0]
        · simp [dict_set, dict_find, h0]
      · by_cases h0 : k1 = k0
        · subst h0
          have : ¬ k = k1 := fun he => h1 he.symm
          simp [dict_set, dict_find, h1, this]
        · simp [dict_set, dict_find, h1, h0, ih]

theorem mem_dict_set {ν : Type _} {d : List (String × ν)} {k : String}
    {v : ν} {e : String × ν} (he : e ∈ dict_set d k v) :
    e = (k, v) ∨ e ∈ d := by
  induction d with
  | nil =>
      simp only [dict_set] at he
      rcases List.mem_cons.mp he with h | h
      · exact Or.inl h
      · cases h
  | cons hd tl ih =>
      obtain ⟨k1, v1⟩ := hd
      by_cases h1 : k1 = k
      · subst h1
        simp only [dict_set, if_pos rfl] at he
        rcases List.mem_cons.mp he with h | h
        · exact Or.inl h
        · exact Or.inr (List.mem_cons_of_mem _ h)
      · simp only [dict_set, if_neg h1] at he
        rcases List.mem_cons.mp he with h | h
        · exact Or.inr (h ▸ List.mem_cons_self _ _)
        · rcases ih h with h2 | h2
          · exact Or.inl h2
          · exact Or.inr (List.mem_cons_of_mem _ h2)

theorem dict_set_keys {ν : Type _} (d : List (String × ν)) (k : String)
    (v : ν) :
    (dict_set d k v).map Prod.fst =
      if k ∈ d.map Prod.fst then d.map Prod.fst
      else d.map Prod.fst ++ [k] := by
  induction d with
  | nil => simp [dict_set]
  | cons hd tl ih =>
      obtain ⟨k1, v1⟩ := hd
      by_cases h1 : k1 = k
      · subst h1
        simp [dict_set]
      · simp only [dict_set, if_neg h1, List.map_cons, ih]
        by_cases hk : k ∈ tl.map Prod.fst
        · have hk2 : k ∈ k1 :: tl.map Prod.fst := List.mem_cons_of_mem _ hk
          simp [hk, hk2]
        · have hk2 : k ∉ k1 :: tl.map Prod.fst := by
            intro hc
            rcases List.mem_cons.mp hc with h | h
            · exact h1 h.symm
            · exact hk h
          simp [hk, hk2]

theorem dict_set_keys_nodup {ν : Type _} (d : List (String × ν)) (k : String)
    (v : ν) (h : (d.map Prod.fst).Nodup) :
    ((dict_set d k v).map Prod.fst).Nodup := by
  rw [dict_set_keys]
  by_cases hk : k ∈ d.map Prod.fst
  · simpa [hk] using h
  · simp [hk, List.nodup_append, h]

theorem dict_find_eq_of_mem {ν : Type _} {d : List (String × ν)} {k : String}
    {v : ν} (hnd : (d.map Prod.fst).Nodup) (h : (k, v) ∈ d) :
    dict_find d k = some v := by
  induction d with
  | nil => cases h
  | cons hd tl ih =>
      obtain ⟨k1, v1⟩ := hd
      rcases List.mem_cons.mp h with heq | hmem
      · injection heq with h1 h2
        subst h1; subst h2
        simp [dict_find]
      · have hk1 : ¬ k1 = k := by
          intro he
          subst he
          have hk1m : k1 ∈ tl.map Prod.fst :=
            List.mem_map_of_mem Prod.fst hmem
          exact (List.nodup_cons.mp (by simpa using hnd)).1 hk1m
        rw [show dict_find ((k1, v1) :: tl) k =
              if k1 = k then some v1 else dict_find tl k from rfl,
            if_neg hk1]
        exact ih (List.nodup_cons.mp (by simpa using hnd)).2 hmem

theorem mem_of_dict_find {ν : Type _} {d : List (String × ν)} {k : String}
    {v : ν} (h : dict_find d k = some v) : (k, v) ∈ d := by
  induction d with
  | nil => cases h
  | cons hd tl ih =>
      obtain ⟨k1, v1⟩ := hd
      by_cases h1 : k1 = k
      · subst h1
        rw [show dict_find ((k1, v1) :: tl) k1 =
              if k1 = k1 then some v1 else dict_find tl k1 from rfl,
            if_pos rfl] at h
        injection h with h
        subst h
        exact List.mem_cons_self _ _
      · rw [show dict_find ((k1, v1) :: tl) k =
              if k1 = k then some v1 else dict_find tl k from rfl,
            if_neg h1] at h
        exact List.mem_cons_of_mem _ (ih h)



theorem last_with_class_spec {c : String} :
    ∀ {rows : List (String × Int)} {r : String × Int},
      last_with_class c rows = some r → r ∈ rows ∧ py_lower r.1 = c := by
  intro rows
  induction rows with
  | nil => intro r h; cases h
  | cons r0 rs ih =>
      intro r h
      simp only [last_with_class] at h
      cases hx : last_with_class c rs with
      | some x =>
          rw [hx] at h
          injection h with h
          subst h
          rcases ih hx with ⟨hm, hc⟩
          exact ⟨List.mem_cons_of_mem _ hm, hc⟩
      | none =>
          rw [hx] at h
          by_cases hc : py_lower r0.1 = c
          · rw [if_pos hc] at h
            injection h with h
            subst h
            exact ⟨List.mem_cons_self _ _, hc⟩
          · rw [if_neg hc] at h
            cases h

theorem last_with_class_isSome {c : String} {rows : List (String × Int)} :
    (last_with_class c rows).isSome = true ↔ ∃ r ∈ rows, py_lower r.1 = c := by
  induction rows with
  | nil => simp [last_with_class]
  | cons r0 rs ih =>
      simp only [last_with_class]
      cases hx : last_with_class c rs with
      | some x =>
          rcases last_with_class_spec hx with ⟨hm, hc⟩
          refine iff_of_true rfl ⟨x, List.mem_cons_of_mem _ hm, hc⟩
      | none =>
          rw [hx] at ih
          by_cases hc : py_lower r0.1 = c
          · rw [if_pos hc]
            refine iff_of_true rfl ⟨r0, List.mem_cons_self _ _, hc⟩
          · rw [if_neg hc]
            simp only [Option.isSome_none, Bool.false_eq_true, false_iff]
            rintro ⟨r, hr, hrc⟩
            rcases List.mem_cons.mp hr with rfl | hr
            · exact hc hrc
            · simp only [Option.isSome_none, Bool.false_eq_true, false_iff] at ih
              exact ih ⟨r, hr, hrc⟩

theorem last_with_class_max {c : String} :
    ∀ {rows : List (String × Int)},
      rows.Pairwise (fun x y => x.2 ≤ y.2) →
      ∀ {w : String × Int}, last_with_class c rows = some w →
      ∀ r ∈ rows, py_lower r.1 = c → r.2 ≤ w.2 := by
  intro rows
  induction rows with
  | nil => intro _ w hw; cases hw
  | cons r0 rs ih =>
      intro hs w hw r hr hc
      rcases List.pairwise_cons.mp hs with ⟨h0, hs2⟩
      simp only [last_with_class] at hw
      cases hx : last_with_class c rs with
      | some x =>
          rw [hx] at hw
          injection hw with hw
          subst hw
          rcases List.mem_cons.mp hr with rfl | hr
          · rcases last_with_class_spec hx with ⟨hmx, _⟩
            exact h0 _ hmx
          · exact ih hs2 hx r hr hc
      | none =>
          rw [hx] at hw
          by_cases hc0 : py_lower r0.1 = c
          · rw [if_pos hc0] at hw
            injection hw with hw
            subst hw
            rcases List.mem_cons.mp hr with rfl | hr
            · exact le_refl _
            · exfalso
              have hsome : (last_with_class c rs).isSome = true :=
                last_with_class_isSome.mpr ⟨r, hr, hc⟩
              rw [hx] at hsome
              cases hsome
          · rw [if_neg hc0] at hw
            cases hw

theorem fold_dict_find (rows : List (String × Int)) :
    ∀ (d : List (String × Int × String)) (c : String),
      dict_find
        (rows.foldl (fun d r => dict_set d (py_lower r.1) (r.2, r.1)) d) c =
        match last_with_class c rows with
        | some r => some (r.2, r.1)
        | none => dict_find d c := by
  induction rows with
  | nil => intro d c; rfl
  | cons r rs ih =>
      intro d c
      rw [List.foldl_cons, ih]
      cases hx : last_with_class c rs with
      | some x => simp [last_with_class, hx]
      | none =>
          simp only [last_with_class, hx]
          rw [dict_find_dict_set]
          by_cases hc : py_lower r.1 = c
          · simp [hc]
          · simp [hc]

theorem fold_entry_class (rows : List (String × Int)) :
    ∀ d : List (String × Int × String),
      (∀ e ∈ d, e.1 = py_lower e.2.2) →
      ∀ e ∈ rows.foldl (fun d r => dict_set d (py_lower r.1) (r.2, r.1)) d,
        e.1 = py_lower e.2.2 := by
  induction rows with
  | nil => intro d hd; exact hd
  | cons r rs ih =>
      intro d hd
      apply ih
      intro e he
      rcases mem_dict_set he with rfl | he
      · rfl
      · exact hd e he

theorem fold_keys_nodup (rows : List (String × Int)) :
    ∀ d : List (String × Int × String),
      (d.map Prod.fst).Nodup →
      ((rows.foldl (fun d r => dict_set d (py_lower r.1) (r.2, r.1)) d).map
          Prod.fst).Nodup := by
  induction rows with
  | nil => intro d hd; exact hd
  | cons r rs ih =>
      intro d hd
      exact ih _ (dict_set_keys_nodup _ _ _ hd)


/-- Claim C1, amended: for every input row list, provided empty topic
names are allowed or absent, generate_topic_history_from_db_rows returns
exactly one entry per case-folded (canonical) topic name (the lowercased
entry names are distinct and cover exactly the canonical names of the
input), and each entry carries the literal casing and max_message_id of
an input row whose max_message_id is highest among all case variants of
that canonical name. -/
theorem generate_topic_history_canonicalization (rows : List (String × Int))
    (allow_empty_topic_name : Bool)
    (h : allow_empty_topic_name = true ∨ ∀ r ∈ rows, r.1 ≠ "") :
    ((generate_topic_history_from_db_rows rows allow_empty_topic_name).map
        (fun e => py_lower e.name)).Nodup ∧
    (∀ c : String,
      (∃ e ∈ generate_topic_history_from_db_rows rows allow_empty_topic_name,
          py_lower e.name = c) ↔
        ∃ r ∈ rows, py_lower r.1 = c) ∧
    (∀ e ∈ generate_topic_history_from_db_rows rows allow_empty_topic_name,
      ∃ r ∈ rows, r.1 = e.name ∧ r.2 = e.max_id ∧
        ∀ r2 ∈ rows, py_lower r2.1 = py_lower e.name → r2.2 ≤ e.max_id) := by
  classical
  set srows := sort_by_key (fun tup => tup.2) rows with hsrows
  set dict := srows.foldl (fun d r => dict_set d (py_lower r.1) (r.2, r.1)) []
    with hdict
  set mk : String × Int × String → TopicHistoryEntry := fun kv =>
    { name :=
        if kv.2.2 == "" && !allow_empty_topic_name then
          EMPTY_TOPIC_FALLBACK_NAME
        else kv.2.2,
      max_id := kv.2.1 } with hmkdef
  have hout : generate_topic_history_from_db_rows rows allow_empty_topic_name =
      sort_by_key (fun e => -e.max_id) (dict.map mk) := rfl
  have hperm : List.Perm srows rows := sort_by_key_perm _ rows
  have hsorted : srows.Pairwise (fun x y => x.2 ≤ y.2) :=
    sort_by_key_pairwise _ rows
  have hkeynd : (dict.map Prod.fst).Nodup :=
    fold_keys_nodup srows [] (by simp)
  have hclass : ∀ e ∈ dict, e.1 = py_lower e.2.2 :=
    fold_entry_class srows [] (by simp)
  have hfind : ∀ c, dict_find dict c =
      match last_with_class c srows with
      | some r => some (r.2, r.1)
      | none => none :=
    fun c => fold_dict_find srows [] c
  have hvalrow : ∀ e ∈ dict, ∃ w, last_with_class e.1 srows = some w ∧
      e.2 = (w.2, w.1) := by
    intro e he
    have hfe : dict_find dict e.1 = some e.2 :=
      dict_find_eq_of_mem hkeynd (by
        have h2 : (e.1, e.2) = e := rfl
        rw [h2]
        exact he)
    rw [hfind e.1] at hfe
    cases hx : last_with_class e.1 srows with
    | some w =>
        rw [hx] at hfe
        injection hfe with hfe
        exact ⟨w, rfl, hfe.symm⟩
    | none =>
        rw [hx] at hfe
        cases hfe
  have hmk : ∀ e ∈ dict, mk e = { name := e.2.2, max_id := e.2.1 } := by
    intro e he
    rcases h with hallow | hne
    · subst hallow
      simp [hmkdef]
    · rcases hvalrow e he with ⟨w, hw, hval⟩
      rcases last_with_class_spec hw with ⟨hwmem, _⟩
      have hwrows : w ∈ rows := hperm.mem_iff.mp hwmem
      have hne2 : e.2.2 ≠ "" := by
        rw [hval]
        exact hne w hwrows
      simp [hmkdef, hne2]
  have hpermout :
      List.Perm
        (generate_topic_history_from_db_rows rows allow_empty_topic_name)
        (dict.map mk) := by
    rw [hout]
    exact sort_by_key_perm _ _
  refine ⟨?_, ?_, ?_⟩
  · have h1 : ((generate_topic_history_from_db_rows rows
          allow_empty_topic_name).map (fun e => py_lower e.name)).Perm
        ((dict.map mk).map (fun e => py_lower e.name)) :=
      hpermout.map _
    have h2 : (dict.map mk).map (fun e => py_lower e.name) =
        dict.map Prod.fst := by
      rw [List.map_map]
      refine List.map_congr_left ?_
      intro e he
      show py_lower (mk e).name = e.1
      rw [hmk e he]
      exact (hclass e he).symm
    exact h1.nodup_iff.mpr (h2 ▸ hkeynd)
  · intro c
    constructor
    · rintro ⟨e, he, hec⟩
      have he2 : e ∈ dict.map mk := hpermout.mem_iff.mp he
      rcases List.mem_map.mp he2 with ⟨kv, hkv, rfl⟩
      rcases hvalrow kv hkv with ⟨w, hw, hval⟩
      refine ⟨w, hperm.mem_iff.mp (last_with_class_spec hw).1, ?_⟩
      have hname : (mk kv).name = kv.2.2 := by rw [hmk kv hkv]
      have h222 : kv.2.2 = w.1 := by rw [hval]
      rw [hname, h222] at hec
      exact hec
    · rintro ⟨r, hr, hrc⟩
      have hrs : r ∈ srows := hperm.mem_iff.mpr hr
      have hsome : (last_with_class c srows).isSome = true :=
        last_with_class_isSome.mpr ⟨r, hrs, hrc⟩
      obtain ⟨w, hw⟩ := Option.isSome_iff_exists.mp hsome
      have hmem : (c, (w.2, w.1)) ∈ dict :=
        mem_of_dict_find (by rw [hfind c, hw])
      refine ⟨mk (c, (w.2, w.1)),
        hpermout.mem_iff.mpr (List.mem_map_of_mem mk hmem), ?_⟩
      rw [hmk _ hmem]
      show py_lower w.1 = c
      exact (last_with_class_spec hw).2
  · intro e he
    have he2 : e ∈ dict.map mk := hpermout.mem_iff.mp he
    rcases List.mem_map.mp he2 with ⟨kv, hkv, rfl⟩
    rcases hvalrow kv hkv with ⟨w, hw, hval⟩
    have hname : (mk kv).name = w.1 := by
      rw [hmk kv hkv]
      show kv.2.2 = w.1
      rw [hval]
    have hmax : (mk kv).max_id = w.2 := by
      rw [hmk kv hkv]
      show kv.2.1 = w.2
      rw [hval]
    rcases last_with_class_spec hw with ⟨hwmem, hwc⟩
    refine ⟨w, hperm.mem_iff.mp hwmem, hname.symm, hmax.symm, ?_⟩
    intro r2 hr2 hc2
    have hr2c : py_lower r2.1 = kv.1 := by
      rw [hc2, hname]
      exact hwc
    rw [hmax]
    exact last_with_class_max hsorted hw r2 (hperm.mem_iff.mpr hr2) hr2c


/-- Witness for claim C1 at the example rows of the claim, including the
concrete output, a single entry with the casing of the highest-id row. -/
theorem generate_topic_history_canonicalization_witness :
    (generate_topic_history_from_db_rows
        [("Bug", 5), ("BUG", 10), ("bug", 3)] true =
      [{ name := "BUG", max_id := 10 }]) ∧
    (((generate_topic_history_from_db_rows
          [("Bug", 5), ("BUG", 10), ("bug", 3)] true).map
        (fun e => py_lower e.name)).Nodup ∧
      (∀ c : String,
        (∃ e ∈ generate_topic_history_from_db_rows
            [("Bug", 5), ("BUG", 10), ("bug", 3)] true,
            py_lower e.name = c) ↔
          ∃ r ∈ [("Bug", (5 : Int)), ("BUG", 10), ("bug", 3)],
            py_lower r.1 = c) ∧
      (∀ e ∈ generate_topic_history_from_db_rows
          [("Bug", 5), ("BUG", 10), ("bug", 3)] true,
        ∃ r ∈ [("Bug", (5 : Int)), ("BUG", 10), ("bug", 3)],
          r.1 = e.name ∧ r.2 = e.max_id ∧
            ∀ r2 ∈ [("Bug", (5 : Int)), ("BUG", 10), ("bug", 3)],
              py_lower r2.1 = py_lower e.name → r2.2 ≤ e.max_id)) :=
  ⟨by decide,
    generate_topic_history_canonicalization
      [("Bug", 5), ("BUG", 10), ("bug", 3)] true (Or.inl rfl)⟩

/-- Counterexample to claim C1 as stated: on the single row with the
empty literal name and allow_empty_topic_name false, the single produced
entry does not carry the literal casing of the winning row but the
fallback label. -/
theorem generate_topic_history_literal_casing_cex :
    generate_topic_history_from_db_rows [("", 7)] false ≠
      [{ name := "", max_id := 7 }] ∧
    generate_topic_history_from_db_rows [("", 7)] false =
      [{ name := EMPTY_TOPIC_FALLBACK_NAME, max_id := 7 }] ∧
    EMPTY_TOPIC_FALLBACK_NAME ≠ "" :=
  ⟨by decide, by decide, by decide⟩

/-- Claim C7: the row with the empty name and id 7 yields the fallback
label when empty topic names are disallowed and the empty name when they
are allowed; in general, disallowing empty names differs from allowing
them exactly by substituting the fallback label into retained entries
whose literal name is empty. -/
theorem generate_topic_history_empty_topic_substitution :
    (generate_topic_history_from_db_rows [("", 7)] false =
      [{ name := EMPTY_TOPIC_FALLBACK_NAME, max_id := 7 }]) ∧
    (generate_topic_history_from_db_rows [("", 7)] true =
      [{ name := "", max_id := 7 }]) ∧
    ∀ rows : List (String × Int),
      generate_topic_history_from_db_rows rows false =
        (generate_topic_history_from_db_rows rows true).map
          (fun e =>
            if e.name = "" then
              { name := EMPTY_TOPIC_FALLBACK_NAME, max_id := e.max_id }
            else e) := by
  refine ⟨by decide, by decide, ?_⟩
  intro rows
  set subst : TopicHistoryEntry → TopicHistoryEntry := fun e =>
    if e.name = "" then
      { name := EMPTY_TOPIC_FALLBACK_NAME, max_id := e.max_id }
    else e with hsubst
  set dict := (sort_by_key (fun tup => tup.2) rows).foldl
      (fun d r => dict_set d (py_lower r.1) (r.2, r.1)) [] with hdict
  set mkF : String × Int × String → TopicHistoryEntry := fun kv =>
    { name :=
        if kv.2.2 == "" && !false then
          EMPTY_TOPIC_FALLBACK_NAME
        else kv.2.2,
      max_id := kv.2.1 } with hmkF
  set mkT : String × Int × String → TopicHistoryEntry := fun kv =>
    { name := kv.2.2, max_id := kv.2.1 } with hmkT
  have hT : generate_topic_history_from_db_rows rows true =
      sort_by_key (fun e => -e.max_id) (dict.map mkT) := by
    set mkT0 : String × Int × String → TopicHistoryEntry := fun kv =>
      { name :=
          if kv.2.2 == "" && !true then
            EMPTY_TOPIC_FALLBACK_NAME
          else kv.2.2,
        max_id := kv.2.1 } with hmkT0
    have hstart : generate_topic_history_from_db_rows rows true =
        sort_by_key (fun e => -e.max_id) (dict.map mkT0) := rfl
    rw [hstart]
    have hfun : mkT0 = mkT := by
      funext kv
      simp [hmkT0, hmkT]
    rw [hfun]
  have hkey : ∀ e : TopicHistoryEntry, -(subst e).max_id = -e.max_id := by
    intro e
    simp only [hsubst]
    by_cases he : e.name = "" <;> simp [he]
  have hcomp : (fun kv : String × Int × String => subst (mkT kv)) = mkF := by
    funext kv
    simp only [hsubst, hmkT, hmkF]
    by_cases hkv : kv.2.2 = "" <;> simp [hkv]
  have hmapmap : dict.map (fun kv => subst (mkT kv)) =
      (dict.map mkT).map subst := by
    rw [List.map_map]
    rfl
  calc generate_topic_history_from_db_rows rows false
      = sort_by_key (fun e => -e.max_id) (dict.map mkF) := rfl
    _ = sort_by_key (fun e => -e.max_id)
          (dict.map (fun kv => subst (mkT kv))) := by rw [hcomp]
    _ = sort_by_key (fun e => -e.max_id) ((dict.map mkT).map subst) := by
          rw [hmapmap]
    _ = (sort_by_key (fun e => -e.max_id) (dict.map mkT)).map subst :=
          sort_by_key_map _ _ subst hkey _
    _ = (generate_topic_history_from_db_rows rows true).map subst := by
          rw [hT]

/-- Key containment in the association-list dict model agrees with
lookup success. -/
theorem dict_find_isSome_any {ν : Type _} (d : List (String × ν)) (k : String) :
    d.any (fun kv => kv.1 == k) = (dict_find d k).isSome := by
  induction d with
  | nil => rfl
  | cons hd tl ih =>
      obtain ⟨k0, v⟩ := hd
      by_cases h : k0 = k <;> simp [dict_find, h, ih]

/-- Claim C3: one edit sets the new edit history to the stored history
(the empty list when null) with the new event prepended at index 0 and
serialized back: the length grows by exactly one, the new event is first,
and the pre-existing events keep their relative order (they are the tail,
unchanged); this holds both for update_edit_history and for the SQL
edit_history expression (edit_history_sql_expr) built by
update_messages_for_topic_edit. -/
theorem edit_history_prepend_spec (message : Msg) (last_edit_time : Int)
    (edit_history_event : EditHistoryEvent) :
    ((update_edit_history message last_edit_time
        edit_history_event).edit_history =
      some (edit_history_event :: message.edit_history.getD [])) ∧
    (((update_edit_history message last_edit_time
        edit_history_event).edit_history.getD []).length =
      (message.edit_history.getD []).length + 1) ∧
    (((update_edit_history message last_edit_time
        edit_history_event).edit_history.getD []).head? =
      some edit_history_event) ∧
    (((update_edit_history message last_edit_time
        edit_history_event).edit_history.getD []).tail =
      message.edit_history.getD []) ∧
    (∀ stored : Option (List EditHistoryEvent),
      edit_history_sql_expr edit_history_event stored =
        edit_history_event :: stored.getD [] ∧
      (edit_history_sql_expr edit_history_event stored).length =
        (stored.getD []).length + 1 ∧
      (edit_history_sql_expr edit_history_event stored).head? =
        some edit_history_event ∧
      (edit_history_sql_expr edit_history_event stored).tail =
        stored.getD []) := by
  have h1 : (update_edit_history message last_edit_time
      edit_history_event).edit_history =
      some (edit_history_event :: message.edit_history.getD []) := by
    cases h : message.edit_history <;> simp [update_edit_history, h]
  have h2 : ∀ stored : Option (List EditHistoryEvent),
      edit_history_sql_expr edit_history_event stored =
        edit_history_event :: stored.getD [] := by
    intro stored
    cases stored <;> simp [edit_history_sql_expr]
  refine ⟨h1, ?_, ?_, ?_, fun stored => ⟨h2 stored, ?_, ?_, ?_⟩⟩ <;>
    simp [h1, h2]

/-- Claim C6: for every string N that does not itself start with the
resolution marker, get_topic_resolution_and_bare_name maps marker ++ N to
(true, N) and N itself to (false, N); the function is pure and total (it
is a Lean function into Bool × String). -/
theorem resolution_round_trip (N : String)
    (h : RESOLVED_TOPIC_PREFIX.data.isPrefixOf N.data = false) :
    get_topic_resolution_and_bare_name ( RESOLVED_TOPIC_PREFIX ++ N) = (true, N) ∧
    get_topic_resolution_and_bare_name N = (false, N) := by
  constructor
  · have hpre :
        RESOLVED_TOPIC_PREFIX.data.isPrefixOf
          ( RESOLVED_TOPIC_PREFIX ++ N).data = true := by
      rw [String.data_append, List.isPrefixOf_iff_prefix]
      exact List.prefix_append _ _
    have hdrop :
        ( RESOLVED_TOPIC_PREFIX ++ N).drop RESOLVED_TOPIC_PREFIX.length = N := by
      apply String.ext
      rw [String.data_drop, String.data_append]
      exact List.drop_left _ _
    simp [get_topic_resolution_and_bare_name, hpre, hdrop]
  · simp [get_topic_resolution_and_bare_name, h]

/-- Witness for claim C6 at the concrete bare name demo. -/
theorem resolution_round_trip_witness :
    RESOLVED_TOPIC_PREFIX.data.isPrefixOf ("demo").data = false ∧
    get_topic_resolution_and_bare_name ( RESOLVED_TOPIC_PREFIX ++ "demo") =
      (true, "demo") ∧
    get_topic_resolution_and_bare_name ("demo") = (false, "demo") :=
  ⟨by decide, (resolution_round_trip ("demo") (by decide)).1,
    (resolution_round_trip ("demo") (by decide)).2⟩

/-- Claim C8: get_latest_message_for_user_in_topic fails with the fatal
assertion error whenever acting_user_has_channel_content_access is false
(false is also the declared default of that argument), never fails the
assertion when the flag is true, and under the satisfied precondition
returns none when history is not public to subscribers and no user
profile is given. -/
theorem latest_message_requires_access_check (db : TopicDB) (realm_id : Int)
    (user_profile : Option Int) (recipient_id : Int) (topic_name : String)
    (history_public_to_subscribers : Bool) :
    (get_latest_message_for_user_in_topic db realm_id user_profile recipient_id
        topic_name history_public_to_subscribers false =
      Except.error ("AssertionError")) ∧
    (∃ v, get_latest_message_for_user_in_topic db realm_id user_profile
        recipient_id topic_name history_public_to_subscribers true =
      Except.ok v) ∧
    (get_latest_message_for_user_in_topic db realm_id none recipient_id
        topic_name false true = Except.ok (none : Option Int)) := by
  refine ⟨rfl, ?_, rfl⟩
  cases history_public_to_subscribers with
  | false =>
      cases user_profile with
      | none => exact ⟨none, rfl⟩
      | some uid => exact ⟨_, rfl⟩
  | true => exact ⟨_, rfl⟩

/-- Claim C9: get_topic_from_message_info returns the value under the
key "topic" when present, otherwise the value under "subject"; when
neither key is present the KeyError propagates to the caller instead of a
default being returned. -/
theorem get_topic_key_fallback (message_info : List (String × String)) :
    (∀ v, dict_find message_info "topic" = some v →
        get_topic_from_message_info message_info = Except.ok v) ∧
    (dict_find message_info "topic" = none →
      ∀ v, dict_find message_info "subject" = some v →
        get_topic_from_message_info message_info = Except.ok v) ∧
    (dict_find message_info "topic" = none →
      dict_find message_info "subject" = none →
      get_topic_from_message_info message_info = Except.error ("KeyError")) := by
  refine ⟨?_, ?_, ?_⟩
  · intro v hv
    have hany : message_info.any (fun kv => kv.1 == "topic") = true := by
      rw [dict_find_isSome_any, hv]
      rfl
    simp [get_topic_from_message_info, hany, dict_get, hv]
  · intro hnone v hv
    have hany : message_info.any (fun kv => kv.1 == "topic") = false := by
      rw [dict_find_isSome_any, hnone]
      rfl
    simp [get_topic_from_message_info, hany, dict_get, hv]
  · intro hnone hnone2
    have hany : message_info.any (fun kv => kv.1 == "topic") = false := by
      rw [dict_find_isSome_any, hnone]
      rfl
    simp [get_topic_from_message_info, hany, dict_get, hnone2]

/-- Witness for claim C9 on three concrete dictionaries. -/
theorem get_topic_key_fallback_witness :
    dict_find [("subject", "sub"), ("topic", "top")] "topic" = some "top" ∧
    get_topic_from_message_info [("subject", "sub"), ("topic", "top")] =
      Except.ok ("top") ∧
    dict_find [("subject", "sub")] "topic" = (none : Option String) ∧
    get_topic_from_message_info [("subject", "sub")] = Except.ok ("sub") ∧
    get_topic_from_message_info [("other", "x")] = Except.error ("KeyError") :=
  ⟨by decide,
    (get_topic_key_fallback [("subject", "sub"), ("topic", "top")]).1 ("top")
      (by decide),
    by decide,
    (get_topic_key_fallback [("subject", "sub")]).2.1 (by decide) ("sub")
      (by decide),
    (get_topic_key_fallback [("other", "x")]).2.2 (by decide) (by decide)⟩

/-- Claim C4: in update_messages_for_topic_edit, under change_later no
row accepted by the candidate predicate has id less than or equal to the
edited message id; under change_all the edited message itself is rejected
by the bulk-update predicate while its id is still in the captured id
list. -/
theorem propagate_mode_boundary (bulk_access : Msg → Bool)
    (edited_message : Msg) (message_edit_request : StreamMessageEditRequest)
    (edit_history_event : EditHistoryEvent) (last_edit_time : Int)
    (db : List Msg) :
    (message_edit_request.propagate_mode = PropagateMode.change_later →
      ∀ m : Msg,
        (update_messages_for_topic_edit bulk_access edited_message
            message_edit_request edit_history_event last_edit_time
            db).messages_pred m = true →
          edited_message.id < m.id) ∧
    (message_edit_request.propagate_mode = PropagateMode.change_all →
      (update_messages_for_topic_edit bulk_access edited_message
          message_edit_request edit_history_event last_edit_time
          db).messages_pred edited_message = false ∧
        edited_message.id ∈
          (update_messages_for_topic_edit bulk_access edited_message
            message_edit_request edit_history_event last_edit_time
            db).message_ids) := by
  have hpred : (update_messages_for_topic_edit bulk_access edited_message
      message_edit_request edit_history_event last_edit_time
      db).messages_pred =
      topic_edit_messages_pred bulk_access message_edit_request
        edited_message.id := rfl
  constructor
  · intro hmode m hm
    rw [hpred] at hm
    have hne : PropagateMode.change_later ≠ PropagateMode.change_all := by
      decide
    simp only [topic_edit_messages_pred, topic_edit_candidate_pred, hmode,
      if_neg hne, if_pos rfl, Bool.and_true, Bool.and_eq_true] at hm
    exact of_decide_eq_true hm.1.2
  · intro hmode
    refine ⟨?_, ?_⟩
    · rw [hpred]
      simp [topic_edit_messages_pred, topic_edit_candidate_pred, hmode]
    · have hids : (update_messages_for_topic_edit bulk_access edited_message
          message_edit_request edit_history_event last_edit_time
          db).message_ids =
          edited_message.id ::
            (db.filter (topic_edit_messages_pred bulk_access
              message_edit_request edited_message.id)).map
              (fun m => m.id) := rfl
      rw [hids]
      exact List.mem_cons_self _ _

/-- Witness for claim C4 at the concrete fixtures, one propagation mode
per conjunct. -/
theorem propagate_mode_boundary_witness :
    ((demo_msg 2 "T1").id < (demo_msg 4 "t1").id) ∧
    ((update_messages_for_topic_edit (fun _ => true) (demo_msg 2 "T1")
        (demo_request PropagateMode.change_all) demo_event 1000
        demo_db).messages_pred (demo_msg 2 "T1") = false) ∧
    ((demo_msg 2 "T1").id ∈
      (update_messages_for_topic_edit (fun _ => true) (demo_msg 2 "T1")
        (demo_request PropagateMode.change_all) demo_event 1000
        demo_db).message_ids) := by
  refine ⟨?_, ?_, ?_⟩
  · exact (propagate_mode_boundary (fun _ => true) (demo_msg 2 "T1")
      (demo_request PropagateMode.change_later) demo_event 1000 demo_db).1
      rfl (demo_msg 4 "t1") (by decide)
  · exact ((propagate_mode_boundary (fun _ => true) (demo_msg 2 "T1")
      (demo_request PropagateMode.change_all) demo_event 1000 demo_db).2
      rfl).1
  · exact ((propagate_mode_boundary (fun _ => true) (demo_msg 2 "T1")
      (demo_request PropagateMode.change_all) demo_event 1000 demo_db).2
      rfl).2

/- C5 -/

/-- Claim C5: the external access-control filter restricts the candidate
set exactly when the stream is being edited; when only the topic name
changes the candidate set does not depend on the access oracle at all
(the right-hand side of the second conjunct never mentions it). -/
theorem access_filter_iff_stream_edited (bulk_access : Msg → Bool)
    (edited_message : Msg) (message_edit_request : StreamMessageEditRequest)
    (edit_history_event : EditHistoryEvent) (last_edit_time : Int)
    (db : List Msg) :
    (message_edit_request.is_stream_edited = true →
      db.filter
          (update_messages_for_topic_edit bulk_access edited_message
            message_edit_request edit_history_event last_edit_time
            db).messages_pred =
        (db.filter
            (topic_edit_candidate_pred message_edit_request
              edited_message.id)).filter bulk_access) ∧
    (message_edit_request.is_stream_edited = false →
      db.filter
          (update_messages_for_topic_edit bulk_access edited_message
            message_edit_request edit_history_event last_edit_time
            db).messages_pred =
        db.filter
          (topic_edit_candidate_pred message_edit_request
            edited_message.id)) := by
  have hpred : (update_messages_for_topic_edit bulk_access edited_message
      message_edit_request edit_history_event last_edit_time
      db).messages_pred =
      topic_edit_messages_pred bulk_access message_edit_request
        edited_message.id := rfl
  constructor
  · intro hse
    rw [hpred, List.filter_filter]
    exact List.filter_congr (fun m _ => by
      simp [topic_edit_messages_pred, hse, Bool.and_comm])
  · intro hse
    rw [hpred]
    exact List.filter_congr (fun m _ => by
      simp [topic_edit_messages_pred, hse])

/-- Witness for claim C5 at the concrete fixtures, one conjunct per
value of is_stream_edited. -/
theorem access_filter_iff_stream_edited_witness :
    (demo_db.filter
        (update_messages_for_topic_edit demo_access (demo_msg 2 "T1")
          demo_request_stream demo_event 1000 demo_db).messages_pred =
      (demo_db.filter
          (topic_edit_candidate_pred demo_request_stream
            (demo_msg 2 "T1").id)).filter demo_access) ∧
    (demo_db.filter
        (update_messages_for_topic_edit demo_access (demo_msg 2 "T1")
          (demo_request PropagateMode.change_all) demo_event 1000
          demo_db).messages_pred =
      demo_db.filter
        (topic_edit_candidate_pred (demo_request PropagateMode.change_all)
          (demo_msg 2 "T1").id)) :=
  ⟨(access_filter_iff_stream_edited demo_access (demo_msg 2 "T1")
      demo_request_stream demo_event 1000 demo_db).1 rfl,
    (access_filter_iff_stream_edited demo_access (demo_msg 2 "T1")
      (demo_request PropagateMode.change_all) demo_event 1000 demo_db).2
      rfl⟩

/- C10 -/

/-- Claim C10: under change_one, update_messages_for_topic_edit applies
no propagation-mode filtering: the candidate predicate equals the base
conversation-and-topic predicate (so the edited message itself is a
candidate), the captured id list contains the edited message id twice,
and the deferred update rewrites every message of the topic. -/
theorem change_one_applies_no_mode_filtering (bulk_access : Msg → Bool)
    (edited_message : Msg) (message_edit_request : StreamMessageEditRequest)
    (edit_history_event : EditHistoryEvent) (last_edit_time : Int)
    (db : List Msg)
    (hmode : message_edit_request.propagate_mode = PropagateMode.change_one)
    (hstream : message_edit_request.is_stream_edited = false) :
    (∀ m : Msg,
      (update_messages_for_topic_edit bulk_access edited_message
          message_edit_request edit_history_event last_edit_time
          db).messages_pred m =
        topic_edit_base_pred message_edit_request m) ∧
    (edited_message ∈ db →
      topic_edit_base_pred message_edit_request edited_message = true →
      (db.map (fun m => m.id)).Nodup →
      ((update_messages_for_topic_edit bulk_access edited_message
          message_edit_request edit_history_event last_edit_time
          db).message_ids.count edited_message.id) = 2) ∧
    (((update_messages_for_topic_edit bulk_access edited_message
        message_edit_request edit_history_event last_edit_time
        db).propagate db).1 =
      db.map (fun m =>
        if topic_edit_base_pred message_edit_request m then
          apply_topic_edit_update message_edit_request edit_history_event
            last_edit_time m
        else m)) := by
  have h1 : PropagateMode.change_one ≠ PropagateMode.change_all := by decide
  have h2 : PropagateMode.change_one ≠ PropagateMode.change_later := by
    decide
  have hpredeq : ∀ m : Msg,
      topic_edit_messages_pred bulk_access message_edit_request
        edited_message.id m =
        topic_edit_base_pred message_edit_request m := by
    intro m
    simp [topic_edit_messages_pred, topic_edit_candidate_pred, hmode,
      hstream, h1, h2]
  have hpred : (update_messages_for_topic_edit bulk_access edited_message
      message_edit_request edit_history_event last_edit_time
      db).messages_pred =
      topic_edit_messages_pred bulk_access message_edit_request
        edited_message.id := rfl
  refine ⟨?_, ?_, ?_⟩
  · intro m
    rw [hpred]
    exact hpredeq m
  · intro hmem hbase hnodup
    have hids : (update_messages_for_topic_edit bulk_access edited_message
        message_edit_request edit_history_event last_edit_time
        db).message_ids =
        edited_message.id ::
          (db.filter (topic_edit_messages_pred bulk_access
            message_edit_request edited_message.id)).map
            (fun m => m.id) := rfl
    rw [hids, List.count_cons_self]
    have hfeq : db.filter (topic_edit_messages_pred bulk_access
        message_edit_request edited_message.id) =
        db.filter (topic_edit_base_pred message_edit_request) :=
      List.filter_congr (fun m _ => hpredeq m)
    rw [hfeq]
    have hmemf : edited_message ∈
        db.filter (topic_edit_base_pred message_edit_request) :=
      List.mem_filter.mpr ⟨hmem, hbase⟩
    have hmemid : edited_message.id ∈
        (db.filter (topic_edit_base_pred message_edit_request)).map
          (fun m => m.id) :=
      List.mem_map_of_mem _ hmemf
    have hnd : ((db.filter (topic_edit_base_pred
        message_edit_request)).map (fun m => m.id)).Nodup :=
      hnodup.sublist ((List.filter_sublist db).map _)
    rw [List.count_eq_one_of_mem hnd hmemid]
  · have hprop : ((update_messages_for_topic_edit bulk_access edited_message
        message_edit_request edit_history_event last_edit_time
        db).propagate db).1 =
        db.map (fun m =>
          if topic_edit_messages_pred bulk_access message_edit_request
              edited_message.id m then
            apply_topic_edit_update message_edit_request edit_history_event
              last_edit_time m
          else m) := rfl
    rw [hprop]
    refine List.map_congr_left ?_
    intro m _
    rw [hpredeq m]

/-- Witness for claim C10 at the concrete fixtures. -/
theorem change_one_applies_no_mode_filtering_witness :
    ((update_messages_for_topic_edit (fun _ => true) (demo_msg 2 "T1")
        (demo_request PropagateMode.change_one) demo_event 1000
        demo_db).message_ids.count (demo_msg 2 "T1").id = 2) ∧
    ((update_messages_for_topic_edit (fun _ => true) (demo_msg 2 "T1")
        (demo_request PropagateMode.change_one) demo_event 1000
        demo_db).messages_pred (demo_msg 1 "T1") =
      topic_edit_base_pred (demo_request PropagateMode.change_one)
        (demo_msg 1 "T1")) :=
  ⟨(change_one_applies_no_mode_filtering (fun _ => true) (demo_msg 2 "T1")
      (demo_request PropagateMode.change_one) demo_event 1000 demo_db rfl
      rfl).2.1 (by decide) (by decide) (by decide),
    (change_one_applies_no_mode_filtering (fun _ => true) (demo_msg 2 "T1")
      (demo_request PropagateMode.change_one) demo_event 1000 demo_db rfl
      rfl).1 (demo_msg 1 "T1")⟩


/- C2 helpers -/

/-- A Boolean that is not true is false. -/
theorem bool_eq_false {b : Bool} (h : ¬ b = true) : b = false := by
  cases b
  · rfl
  · exact absurd rfl h

theorem contains_int_iff {l : List Int} {a : Int} :
    l.contains a = true ↔ a ∈ l := by simp [List.contains]

theorem map_map_general {α β γ : Type _} (f : β → γ) (g : α → β)
    (l : List α) : (l.map g).map f = l.map (fun a => f (g a)) := by
  induction l with
  | nil => rfl
  | cons x xs ih => simp [ih]

theorem filter_map_general {α β : Type _} (h : α → β) (p : β → Bool)
    (l : List α) :
    (l.map h).filter p = (l.filter (fun a => p (h a))).map h := by
  induction l with
  | nil => rfl
  | cons x xs ih =>
      by_cases hx : p (h x) = true <;> simp [hx, ih]

/- C2 -/

/-- Claim C2: for a change-all topic move from T1 to T2,
update_messages_for_topic_edit captures the edited message id plus every
candidate row id before the update; after the caller stored the edited
message with the new topic, the deferred re-fetch by the captured ids
returns exactly as many rows as the original candidate set of the topic
(no row lost or duplicated: the re-fetched ids are a permutation of the
captured ids), and every returned row carries the new topic T2. -/
theorem change_all_refetch_stable (bulk_access : Msg → Bool)
    (edited_message edited_saved : Msg)
    (message_edit_request : StreamMessageEditRequest)
    (edit_history_event : EditHistoryEvent) (last_edit_time : Int)
    (db db_saved refetch : List Msg)
    (hmode : message_edit_request.propagate_mode = PropagateMode.change_all)
    (hstream : message_edit_request.is_stream_edited = false)
    (htopic : message_edit_request.is_topic_edited = true)
    (hmem : edited_message ∈ db)
    (hbase : topic_edit_base_pred message_edit_request edited_message = true)
    (hnodup : (db.map (fun m => m.id)).Nodup)
    (hsid : edited_saved.id = edited_message.id)
    (hssubj : edited_saved.subject = message_edit_request.target_topic_name)
    (hdbsaved : db_saved = db.map (fun m =>
      if m.id = edited_message.id then edited_saved else m))
    (hrefetch : refetch =
      ((update_messages_for_topic_edit bulk_access edited_message
          message_edit_request edit_history_event last_edit_time
          db).propagate db_saved).2) :
    refetch.length =
      (db.filter (topic_edit_base_pred message_edit_request)).length ∧
    List.Perm (refetch.map (fun m => m.id))
      (update_messages_for_topic_edit bulk_access edited_message
        message_edit_request edit_history_event last_edit_time
        db).message_ids ∧
    ∀ m ∈ refetch, m.subject = message_edit_request.target_topic_name := by
  classical
  have hlater : PropagateMode.change_all ≠ PropagateMode.change_later := by
    decide
  have hpredeq : ∀ m : Msg,
      topic_edit_messages_pred bulk_access message_edit_request
        edited_message.id m =
        (topic_edit_base_pred message_edit_request m &&
          (m.id != edited_message.id)) := by
    intro m
    simp [topic_edit_messages_pred, topic_edit_candidate_pred, hmode,
      hstream, hlater]
  have hids : (update_messages_for_topic_edit bulk_access edited_message
      message_edit_request edit_history_event last_edit_time
      db).message_ids =
      edited_message.id ::
        (db.filter (topic_edit_messages_pred bulk_access
          message_edit_request edited_message.id)).map (fun m => m.id) :=
    rfl
  have hrefetch2 : refetch =
      (db_saved.map (fun m =>
        if topic_edit_messages_pred bulk_access message_edit_request
            edited_message.id m then
          apply_topic_edit_update message_edit_request edit_history_event
            last_edit_time m
        else m)).filter (fun m =>
          (edited_message.id ::
            (db.filter (topic_edit_messages_pred bulk_access
              message_edit_request edited_message.id)).map
              (fun m => m.id)).contains m.id) := hrefetch
  set pred := topic_edit_messages_pred bulk_access message_edit_request
    edited_message.id with hpreddef
  set g : Msg → Msg := fun m =>
    if m.id = edited_message.id then edited_saved else m with hgdef
  set f : Msg → Msg := fun m =>
    if pred m then
      apply_topic_edit_update message_edit_request edit_history_event
        last_edit_time m
    else m with hfdef
  have hgid : ∀ m : Msg, (g m).id = m.id := by
    intro m
    by_cases h : m.id = edited_message.id <;> simp [hgdef, h, hsid]
  have happlyid : ∀ m : Msg,
      (apply_topic_edit_update message_edit_request edit_history_event
        last_edit_time m).id = m.id := fun m => rfl
  have hfid : ∀ m : Msg, (f m).id = m.id := by
    intro m
    by_cases h : pred m = true
    · simp [hfdef, h, happlyid]
    · simp [hfdef, h]
  have hinj : ∀ a ∈ db, ∀ b ∈ db, a.id = b.id → a = b :=
    fun a ha b hb hab => List.inj_on_of_nodup_map hnodup ha hb hab
  have hchar : ∀ m ∈ db,
      ((edited_message.id :: (db.filter pred).map (fun m => m.id)).contains
        m.id = topic_edit_base_pred message_edit_request m) := by
    intro m hm
    cases hb : topic_edit_base_pred message_edit_request m with
    | true =>
        by_cases hid : m.id = edited_message.id
        · exact contains_int_iff.mpr (by
            rw [hid]
            exact List.mem_cons_self _ _)
        · have hpm : pred m = true := by
            rw [hpredeq m, hb]
            simp [hid]
          exact contains_int_iff.mpr
            (List.mem_cons_of_mem _
              (List.mem_map_of_mem _ (List.mem_filter.mpr ⟨hm, hpm⟩)))
    | false =>
        apply bool_eq_false
        intro hc
        have hmemids := contains_int_iff.mp hc
        rcases List.mem_cons.mp hmemids with hcid | hcid
        · have hme : m = edited_message := hinj m hm edited_message hmem hcid
          rw [hme, hbase] at hb
          cases hb
        · rcases List.mem_map.mp hcid with ⟨c, hcf, hcid2⟩
          rcases List.mem_filter.mp hcf with ⟨hcdb, hcp⟩
          have hcm : c = m := hinj c hcdb m hm hcid2
          rw [hcm, hpredeq m, hb] at hcp
          simp at hcp
  have hmain : refetch =
      (db.filter (topic_edit_base_pred message_edit_request)).map
        (fun m => f (g m)) := by
    rw [hrefetch2, hdbsaved, map_map_general, filter_map_general]
    congr 1
    refine List.filter_congr ?_
    intro m hm
    show (edited_message.id :: (db.filter pred).map (fun m => m.id)).contains
        (f (g m)).id = topic_edit_base_pred message_edit_request m
    rw [hfid, hgid]
    exact hchar m hm
  refine ⟨?_, ?_, ?_⟩
  · rw [hmain, List.length_map]
  · have hrfids : refetch.map (fun m => m.id) =
        (db.filter (topic_edit_base_pred message_edit_request)).map
          (fun m => m.id) := by
      rw [hmain, map_map_general]
      exact List.map_congr_left (fun m _ => by rw [hfid, hgid])
    rw [hrfids, hids]
    have hAnd : ((db.filter (topic_edit_base_pred
        message_edit_request)).map (fun m => m.id)).Nodup :=
      hnodup.sublist ((List.filter_sublist db).map _)
    have htailnd : ((db.filter pred).map (fun m => m.id)).Nodup :=
      hnodup.sublist ((List.filter_sublist db).map _)
    have hheadnotin : edited_message.id ∉
        (db.filter pred).map (fun m => m.id) := by
      intro hc
      rcases List.mem_map.mp hc with ⟨c, hcf, hcid⟩
      have hcp := (List.mem_filter.mp hcf).2
      rw [hpredeq c] at hcp
      rw [hcid] at hcp
      simp at hcp
    have hBnd : (edited_message.id ::
        (db.filter pred).map (fun m => m.id)).Nodup :=
      List.nodup_cons.mpr ⟨hheadnotin, htailnd⟩
    have hsub1 : (db.filter (topic_edit_base_pred
        message_edit_request)).map (fun m => m.id) ⊆
        edited_message.id :: (db.filter pred).map (fun m => m.id) := by
      intro i hi
      rcases List.mem_map.mp hi with ⟨m, hmf, rfl⟩
      rcases List.mem_filter.mp hmf with ⟨hmdb, hmb⟩
      by_cases hid : m.id = edited_message.id
      · rw [hid]
        exact List.mem_cons_self _ _
      · have hpm : pred m = true := by
          rw [hpredeq m, hmb]
          simp [hid]
        exact List.mem_cons_of_mem _
          (List.mem_map_of_mem _ (List.mem_filter.mpr ⟨hmdb, hpm⟩))
    have hsub2 : edited_message.id ::
        (db.filter pred).map (fun m => m.id) ⊆
        (db.filter (topic_edit_base_pred message_edit_request)).map
          (fun m => m.id) := by
      intro i hi
      rcases List.mem_cons.mp hi with rfl | hi
      · exact List.mem_map_of_mem _ (List.mem_filter.mpr ⟨hmem, hbase⟩)
      · rcases List.mem_map.mp hi with ⟨c, hcf, rfl⟩
        rcases List.mem_filter.mp hcf with ⟨hcdb, hcp⟩
        rw [hpredeq c] at hcp
        have hcb : topic_edit_base_pred message_edit_request c = true := by
          have h2 := hcp
          simp only [Bool.and_eq_true] at h2
          exact h2.1
        exact List.mem_map_of_mem _ (List.mem_filter.mpr ⟨hcdb, hcb⟩)
    exact (List.subperm_of_subset hAnd hsub1).antisymm
      (List.subperm_of_subset hBnd hsub2)
  · intro m hm
    rw [hmain] at hm
    rcases List.mem_map.mp hm with ⟨m0, hm0f, rfl⟩
    rcases List.mem_filter.mp hm0f with ⟨hm0db, hm0b⟩
    by_cases hid0 : m0.id = edited_message.id
    · have hg : g m0 = edited_saved := by simp [hgdef, hid0]
      have hpes : pred edited_saved = false := by
        rw [hpredeq edited_saved]
        simp [hsid]
      rw [hg]
      simp [hfdef, hpes, hssubj]
    · have hg : g m0 = m0 := by simp [hgdef, hid0]
      have hpm : pred m0 = true := by
        rw [hpredeq m0, hm0b]
        simp [hid0]
      rw [hg]
      simp [hfdef, hpm, apply_topic_edit_update, htopic]

/-- Witness for claim C2 at the concrete change-all fixture. -/
theorem change_all_refetch_stable_witness :
    demo_refetch.length =
      (demo_db.filter (topic_edit_base_pred
        (demo_request PropagateMode.change_all))).length ∧
    List.Perm (demo_refetch.map (fun m => m.id))
      (update_messages_for_topic_edit (fun _ => true) demo_edited
        (demo_request PropagateMode.change_all) demo_event 1000
        demo_db).message_ids ∧
    ∀ m ∈ demo_refetch,
      m.subject =
        (demo_request PropagateMode.change_all).target_topic_name :=
  change_all_refetch_stable (fun _ => true) demo_edited demo_saved
    (demo_request PropagateMode.change_all) demo_event 1000 demo_db
    demo_db_saved demo_refetch rfl rfl rfl (by decide) (by decide)
    (by decide) (by decide) (by decide) rfl rfl

end ZerverTopic
